import Mathlib

/-!
Verification development for the Kanka-export text converter
(`kanka_converter.py`).  The relevant parts of the program are embedded
shallowly: the mention resolver (`resolve_mentions`) as a left-to-right
scanner over character lists, the markup normalizer (`clean_html`) over a
first-child / next-sibling tree of parsed HTML nodes, the identity-index
builder (`create_id_map`) as a fold over the traversal order, and the
per-type formatters as functions building the list of joined parts.
-/

/-- An entry of the identity index: `{'name': name, 'type': type_name}`. -/
structure Entry where
  name : String
  type : String
deriving DecidableEq, Repr

/-- The identity index `id_map : {id: {'name': ..., 'type': ...}}`. -/
def IdMap := Nat → Option Entry

/-- Character class `[a-zA-Z]` of the mention regex. -/
def isAlphaCh (c : Char) : Bool :=
  ('a' ≤ c && c ≤ 'z') || ('A' ≤ c && c ≤ 'Z')

/-- Character class `\d` of the mention regex (ASCII digits). -/
def isDigitCh (c : Char) : Bool :=
  '0' ≤ c && c ≤ '9'

/-- `int(...)` on the digit string captured by group 2. -/
def digitsToNat (l : List Char) : Nat :=
  l.foldl (fun a c => 10 * a + (c.toNat - 48)) 0

/-- Scan the remainder of the optional override group `(?:\|[^\]]*)?` after
a `'|'`: consume characters up to and including the first `']'`; fail when
no `']'` follows (the regex then has no way to close the token). -/
def splitRB : List Char → Option (List Char)
  | [] => none
  | c :: r => if c = ']' then some r else splitRB r

/-- Scan `\d+` followed by `']'` or by `'|' [^\]]* ']'`; `acc` holds the
digits consumed so far.  Returns the digit group and the characters after
the closing `']'`. -/
def scanDigits (acc : List Char) : List Char → Option (List Char × List Char)
  | [] => none
  | c :: r =>
    if isDigitCh c then scanDigits (acc ++ [c]) r
    else if acc ≠ [] ∧ c = ']' then some (acc, r)
    else if acc ≠ [] ∧ c = '|' then (splitRB r).map fun rest => (acc, rest)
    else none

/-- Scan `[a-zA-Z]+` followed by `':'` and then the digit part; `acc` holds
the letters consumed so far.  Returns (type tag, digit group, rest). -/
def scanAlpha (acc : List Char) : List Char → Option (List Char × List Char × List Char)
  | [] => none
  | c :: r =>
    if isAlphaCh c then scanAlpha (acc ++ [c]) r
    else if acc ≠ [] ∧ c = ':' then
      match scanDigits [] r with
      | some (ds, rest) => some (acc, ds, rest)
      | none => none
    else none

/-- Try to match the token pattern `\[([a-zA-Z]+):(\d+)(?:\|[^\]]*)?\]` at
the head of the list (maximal-munch scan, equivalent to the regex since the
character classes are disjoint from the following literals). -/
def tryToken : List Char → Option (List Char × List Char × List Char)
  | [] => none
  | c :: s => if c = '[' then scanAlpha [] s else none

/-- ASCII upper-casing of a single character (Python `str.upper` on the
letters the token grammar can produce). -/
def upTable : List (Char × Char) :=
  [('a', 'A'), ('b', 'B'), ('c', 'C'), ('d', 'D'), ('e', 'E'), ('f', 'F'),
   ('g', 'G'), ('h', 'H'), ('i', 'I'), ('j', 'J'), ('k', 'K'), ('l', 'L'),
   ('m', 'M'), ('n', 'N'), ('o', 'O'), ('p', 'P'), ('q', 'Q'), ('r', 'R'),
   ('s', 'S'), ('t', 'T'), ('u', 'U'), ('v', 'V'), ('w', 'W'), ('x', 'X'),
   ('y', 'Y'), ('z', 'Z')]

/-- ASCII lower-casing table. -/
def downTable : List (Char × Char) := upTable.map fun p => (p.2, p.1)

/-- First-match lookup in a character table. -/
def tableGet : List (Char × Char) → Char → Option Char
  | [], _ => none
  | p :: t, c => if c = p.1 then some p.2 else tableGet t c

/-- Upper-case one ASCII character, identity elsewhere. -/
def upChar (c : Char) : Char := (tableGet upTable c).getD c

/-- Lower-case one ASCII character, identity elsewhere. -/
def downChar (c : Char) : Char := (tableGet downTable c).getD c

/-- Python `str.capitalize()`: first character upper-cased, the rest
lower-cased (ASCII suffices: the captured type tag is `[a-zA-Z]+`). -/
def pyCapitalize : List Char → List Char
  | [] => []
  | c :: r => upChar c :: r.map downChar

/-- Decimal digits of a natural number (Python `str(int)`), fuel-driven so
that it reduces definitionally. -/
def natDigitsAux : Nat → Nat → List Char → List Char
  | 0, _, acc => acc
  | f + 1, n, acc =>
    if n < 10 then Char.ofNat (48 + n) :: acc
    else natDigitsAux f (n / 10) (Char.ofNat (48 + n % 10) :: acc)

/-- Decimal representation of `n`, e.g. `natDigits 99 = ['9', '9']`. -/
def natDigits (n : Nat) : List Char := natDigitsAux (n + 1) n []

/-- The replacement `replace_func` computes for a matched token with type
tag `typ` and digit group `ds`:
`f"{entry['name']} ({entry['type']})"` when the id is in the index and
`f"[{entity_type} Not Found: {entity_id}]"` (with the token's own tag
capitalized) otherwise. -/
def replacement (m : IdMap) (typ ds : List Char) : List Char :=
  match m (digitsToNat ds) with
  | some e => e.name.data ++ " (".data ++ e.type.data ++ ")".data
  | none => "[".data ++ pyCapitalize typ ++ " Not Found: ".data
      ++ natDigits (digitsToNat ds) ++ "]".data

/-- The `re.sub` loop: scan left to right, replace every match, never
re-scan replacement text.  `fuel` dominates the length of the input. -/
def resolveAuxF (m : IdMap) : Nat → List Char → List Char
  | 0, l => l
  | _ + 1, [] => []
  | f + 1, c :: rest =>
    match tryToken (c :: rest) with
    | some (typ, ds, r) => replacement m typ ds ++ resolveAuxF m f r
    | none => c :: resolveAuxF m f rest

/-- `re.sub(pattern, replace_func, text)` on a character list. -/
def resolveList (m : IdMap) (l : List Char) : List Char :=
  resolveAuxF m l.length l

/-- `resolve_mentions(text, id_map)`: `None` or empty text short-circuits
to the empty string (`if not text: return ""`). -/
def resolveMentions (m : IdMap) (text : Option String) : String :=
  match text with
  | none => ""
  | some s => if s = "" then "" else (resolveList m s.data).asString

/-!  The markup normalizer `clean_html`.  Its input is the HTML string as
parsed by BeautifulSoup; the parse tree is embedded in first-child /
next-sibling form so that every traversal is plain structural recursion.
`HTree.nil` ends a sibling chain; a whole document is the chain of its
top-level nodes.  An absent (`None`) or empty markup field is embedded as
`none : Option HTree`. -/
inductive HTree where
  | nil : HTree
  | text : String → HTree → HTree
  | elem : String → List (String × String) → HTree → HTree → HTree
deriving DecidableEq, Repr

/-- `soup.get_text()` / `element.get_text()`: concatenation of all text
nodes in document order. -/
def getText : HTree → String
  | .nil => ""
  | .text s sib => s ++ getText sib
  | .elem _ _ child sib => getText child ++ getText sib

/-- Attribute lookup, `a['href']`-style (`href=True` in `find_all` means
the attribute is present). -/
def attrGet : List (String × String) → String → Option String
  | [], _ => none
  | p :: t, k => if p.1 = k then some p.2 else attrGet t k

/-- List-level substring prefix test. -/
def isPrefixL : List Char → List Char → Bool
  | [], _ => true
  | _ :: _, [] => false
  | a :: as, b :: bs => a == b && isPrefixL as bs

/-- List-level substring containment. -/
def containsL (needle : List Char) : List Char → Bool
  | [] => needle == []
  | c :: t => isPrefixL needle (c :: t) || containsL needle t

/-- Python `needle in hay` on strings. -/
def pyIn (needle hay : String) : Bool := containsL needle.data hay.data

/-- Python `str.lower()` (ASCII). -/
def lowerStr (s : String) : String := (s.data.map downChar).asString

/-- `'app.kanka.io' in a['href']` guarded by `href=True`. -/
def hrefHasKanka (attrs : List (String × String)) : Bool :=
  match attrGet attrs "href" with
  | some h => pyIn "app.kanka.io" h
  | none => false

/-- `'click here' in a.get_text().lower()`. -/
def clickHereText (child : HTree) : Bool :=
  pyIn "click here" (lowerStr (getText child))

/-- Does this element trigger the instructional-link removal?  It must be
an `a` whose `href` attribute exists and contains `'app.kanka.io'` and
whose visible text contains `'click here'` after lower-casing. -/
def isTriggerA (name : String) (attrs : List (String × String)) (child : HTree) : Bool :=
  name == "a" && hrefHasKanka attrs && clickHereText child

/-- Is there a trigger link in this forest whose nearest `p` ancestor is
the `p` directly above the forest?  (`a.find_parent('p')` stops at the
nearest enclosing paragraph, so the search does not descend into nested
`p` elements — their links decompose the inner paragraph instead.) -/
def hasTrigger : HTree → Bool
  | .nil => false
  | .text _ sib => hasTrigger sib
  | .elem name attrs child sib =>
    ((name != "p") && (isTriggerA name attrs child || hasTrigger child))
      || hasTrigger sib

/-- The decompose loop: every `p` that is the nearest paragraph ancestor
of a trigger link is removed in its entirety. -/
def scrub : HTree → HTree
  | .nil => .nil
  | .text s sib => .text s (scrub sib)
  | .elem name attrs child sib =>
    if name = "p" ∧ hasTrigger child then scrub sib
    else .elem name attrs (scrub child) (scrub sib)

/-- Python `str.strip()` whitespace (ASCII set). -/
def isPySpace (c : Char) : Bool :=
  c == ' ' || c == '\t' || c == '\n' || c == '\r' || c == '\x0b' || c == '\x0c'

/-- Python `str.strip()`. -/
def pyStrip (s : String) : String :=
  (((s.data.dropWhile isPySpace).reverse.dropWhile isPySpace).reverse).asString

/-- Python `str.split('\n')` (keeps empty pieces). -/
def splitNLAux (acc : List Char) : List Char → List (List Char)
  | [] => [acc.reverse]
  | c :: r => if c = '\n' then acc.reverse :: splitNLAux [] r else splitNLAux (c :: acc) r

/-- Python `'\n'.join(f"> {line.strip()}" for line in s.split('\n')) + '\n'`,
the italics/emphasis rendering of `clean_html`. -/
def quoteLines (s : String) : String :=
  (String.intercalate "\n"
    ((splitNLAux [] s.data).map fun l => "> " ++ pyStrip l.asString)) ++ "\n"

/-- Python `sep.join(list)`. -/
def pyJoin (sep : String) : List String → String
  | [] => ""
  | [s] => s
  | s :: rest => s ++ sep ++ pyJoin sep rest

/-- `element.find_all('li')` rendering inside a `ul`: each `li` descendant
in document order becomes `f"- {li.get_text().strip()}\n"`. -/
def liTexts : HTree → List String
  | .nil => []
  | .text _ sib => liTexts sib
  | .elem name _ child sib =>
    (if name = "li" then ["- " ++ pyStrip (getText child) ++ "\n"] else [])
      ++ liTexts child ++ liTexts sib

/-- The `text_parts` loop of `clean_html`: iterate over
`soup.find_all(['p', 'ul', 'h3', 'h4', 'b', 'strong', 'i', 'em'])` in
document order and render each recognized element. -/
def textParts : HTree → List String
  | .nil => []
  | .text _ sib => textParts sib
  | .elem name _ child sib =>
    (if name = "p" then [pyStrip (getText child) ++ "\n"]
     else if name = "ul" then liTexts child ++ ["\n"]
     else if name = "h3" ∨ name = "h4" ∨ name = "b" ∨ name = "strong" then
       [pyStrip (getText child) ++ "\n"]
     else if name = "i" ∨ name = "em" then [quoteLines (getText child)]
     else [])
      ++ textParts child ++ textParts sib

/-- `clean_html(html_content)`: empty/absent input returns `""`; otherwise
remove the instructional-link paragraphs, render the recognized elements,
and fall back to `soup.get_text()` when no recognized element was found. -/
def cleanHtml : Option HTree → String
  | none => ""
  | some doc =>
    let doc1 := scrub doc
    let parts := textParts doc1
    if parts = [] then getText doc1
    else pyStrip (pyJoin "" parts)

/-- Serialization of the parse tree back to a markup string (used to state
that an input markup string is non-empty). -/
def renderH : HTree → String
  | .nil => ""
  | .text s sib => s ++ renderH sib
  | .elem name _ child sib =>
    "<" ++ name ++ ">" ++ renderH child ++ "</" ++ name ++ ">" ++ renderH sib

/-- Does the tree contain any block construct recognized by `clean_html`? -/
def hasRecognized : HTree → Bool
  | .nil => false
  | .text _ sib => hasRecognized sib
  | .elem name _ child sib =>
    (name == "p" || name == "ul" || name == "h3" || name == "h4"
      || name == "b" || name == "strong" || name == "i" || name == "em")
      || hasRecognized child || hasRecognized sib

/-!  Pass 1: `create_id_map`.  The corpus traversal is abstracted as the
list, in `os.walk` order, of the decodable record files, each given by the
name of its containing folder and its decoded `id`/`name` fields. -/

/-- The decoded identity fields of one record file. -/
structure RawRec where
  id : Option Nat
  name : Option String
deriving Repr

/-- The `type_name_map` dictionary (recognized folders and their labels). -/
def typeNameMap (f : String) : Option String :=
  if f = "characters" then some "Character"
  else if f = "families" then some "Family"
  else if f = "locations" then some "Location"
  else if f = "journals" then some "Journal"
  else if f = "notes" then some "Note"
  else if f = "organisations" then some "Organisation"
  else if f = "races" then some "Race"
  else none

/-- Python truthiness of `data.get('id')` (absent or zero is falsy). -/
def truthyNat : Option Nat → Bool
  | some n => n != 0
  | none => false

/-- Python truthiness of an optional string (absent or empty is falsy). -/
def truthyStr : Option String → Bool
  | some s => s != ""
  | none => false

/-- One iteration of the indexing loop: skip unrecognized folders, then
`if entity_id and name: id_map[entity_id] = {...}`. -/
def indexStep (m : IdMap) (file : String × RawRec) : IdMap :=
  match typeNameMap file.1 with
  | none => m
  | some t =>
    if truthyNat file.2.id ∧ truthyStr file.2.name then
      fun k => if some k = file.2.id then
        some ⟨file.2.name.getD "", t⟩ else m k
    else m

/-- `create_id_map`: fold the indexing step over the traversal order,
starting from the empty dictionary. -/
def createIdMap (files : List (String × RawRec)) : IdMap :=
  files.foldl indexStep (fun _ => none)

/-- Does processing this file write the index at key `i`? -/
def writesAt (file : String × RawRec) (i : Nat) : Bool :=
  (typeNameMap file.1).isSome && file.2.id == some i
    && truthyNat file.2.id && truthyStr file.2.name

/-!  Pass 2 formatters.  Only the parts of a record that the formatter
reads are modeled: relation links are lists of the linked ids (the code
reads `data['character_races'][0]['race_id']` etc.), markup fields are the
parsed trees fed to `clean_html`. -/

/-- One entry of `data['entity']['posts']`. -/
structure KPost where
  name : Option String
  entry : Option HTree

/-- The fields of a character record read by `format_character`. -/
structure CharRec where
  name : Option String
  title : Option String
  ctype : Option String
  sex : Option String
  character_races : List Nat
  character_families : List Nat
  entry : Option HTree
  posts : List KPost

/-- f-string interpolation of a possibly-absent value (`None` prints as
`"None"`). -/
def pyShow (o : Option String) : String :=
  match o with
  | some s => s
  | none => "None"

/-- The `parts` list assembled by `format_character`. -/
def charParts (m : IdMap) (d : CharRec) : List String :=
  ["[Basic Information]", "Name: " ++ d.name.getD "N/A"]
  ++ (if truthyStr d.title then ["Title: " ++ pyShow d.title] else [])
  ++ (if truthyStr d.ctype then ["Type: " ++ pyShow d.ctype] else [])
  ++ (if truthyStr d.sex then ["Sex: " ++ pyShow d.sex] else [])
  ++ (match d.character_races with
      | [] => []
      | rid :: _ =>
        ["Race: " ++ (match m rid with
          | some e => e.name
          | none => "Unknown")])
  ++ (match d.character_families with
      | [] => []
      | fid :: _ =>
        ["Family: " ++ (match m fid with
          | some e => e.name
          | none => "Unknown")])
  ++ ["\n---\n[Primary Description]\n", cleanHtml d.entry]
  ++ d.posts.flatMap (fun p =>
      ["\n---\n[Notes: " ++ pyShow p.name ++ "]\n", cleanHtml p.entry])

/-- `format_character(data, id_map)` (the body is `"\n".join(parts)`). -/
def formatCharacter (m : IdMap) (d : CharRec) : String :=
  pyJoin "\n" (charParts m d)

/-- One entry of `data['members']` of an organisation. -/
structure OrgMember where
  role : Option String
  character_id : Nat

/-- The fields of an organisation record read by `format_organisation`. -/
structure OrgRec where
  name : Option String
  otype : Option String
  is_defunct : Bool
  pivotLocations : List Nat
  entry : Option HTree
  members : List OrgMember

/-- The `parts` list assembled by `format_organisation`. -/
def orgParts (m : IdMap) (d : OrgRec) : List String :=
  ["[Basic Information]", "Name: " ++ d.name.getD "N/A"]
  ++ (if truthyStr d.otype then ["Type: " ++ pyShow d.otype] else [])
  ++ ["Status: " ++ (if d.is_defunct then "Defunct" else "Active")]
  ++ (match d.pivotLocations with
      | [] => []
      | lid :: _ =>
        match m lid with
        | some e => ["\n[Location]\nBased in: " ++ e.name ++ " (" ++ e.type ++ ")"]
        | none => [])
  ++ ["\n---\n[Primary Description]\n", cleanHtml d.entry]
  ++ (match d.members with
      | [] => []
      | _ :: _ => ["\n---\n[Members Roster]"]
        ++ d.members.flatMap (fun mem =>
            ["\n- Role: " ++ mem.role.getD "Member"]
            ++ (match m mem.character_id with
                | some e => ["  - Member: " ++ e.name ++ " (" ++ e.type ++ ")"]
                | none => ["  - Member: [Character Not Found: "
                    ++ (natDigits mem.character_id).asString ++ "]"])))

/-- `format_organisation(data, id_map)`. -/
def formatOrganisation (m : IdMap) (d : OrgRec) : String :=
  pyJoin "\n" (orgParts m d)

/-!  The aggregator/writer flush of `generate_text_files`: one output file
per entity type with at least one buffered record, records joined by the
fixed separator. -/

/-- `separator = "\n\n\n" + ("=" * 80) + "\n\n\n"`. -/
def fileSeparator : String :=
  "\n\n\n" ++ (List.replicate 80 '=').asString ++ "\n\n\n"

/-- The flush loop: for each `(entity_type, content_list)` buffer in
order, skip empty buffers, otherwise emit `(filename, joined content)`. -/
def flushBuffers (buffers : List (String × List String)) : List (String × String) :=
  buffers.filterMap fun b =>
    if b.2 = [] then none
    else some (b.1 ++ ".txt", pyJoin fileSeparator b.2)

/-- The characters a token's optional override segment contributes:
nothing, or `'|'` followed by the override text. -/
def ovPart : Option (List Char) → List Char
  | none => []
  | some o => '|' :: o

/-- Characters that can never re-create token syntax when they occur in
an index name or type label. -/
def goodCh (c : Char) : Bool :=
  !(c == '[' || c == ']' || c == ':' || c == '|')

/-- An index whose names and type labels contain none of `'['`, `']'`,
`':'`, `'|'`. -/
def GoodMap (m : IdMap) : Prop :=
  ∀ n e, m n = some e →
    (∀ c ∈ e.name.data, goodCh c = true) ∧ (∀ c ∈ e.type.data, goodCh c = true)

/-- No suffix of the list matches the token pattern. -/
def noTokR : List Char → Prop
  | [] => True
  | c :: r => tryToken (c :: r) = none ∧ noTokR r

/-- A concrete index containing only `{5: {'name': 'Bob', 'type': 'Character'}}`. -/
def mapBob : IdMap := fun n => if n = 5 then some ⟨"Bob", "Character"⟩ else none

/-- The empty index. -/
def mapEmpty : IdMap := fun _ => none

/-- An index whose stored name itself contains a full mention token. -/
def mapBracket : IdMap :=
  fun n => if n = 1 then some ⟨"[character:1]", "Character"⟩ else none

/-- An index whose stored name contains `':'` and `'|'` but no bracket. -/
def mapColon : IdMap :=
  fun n => if n = 1 then some ⟨"a:1|", "T"⟩ else none

/-- A concrete character record (first linked race id 7, family id 9). -/
def charRec0 : CharRec :=
  { name := some "Ann", title := none, ctype := none, sex := some "F",
    character_races := [7, 8], character_families := [9, 10],
    entry := none, posts := [] }

/-- A concrete organisation record with one roster member. -/
def orgRec0 : OrgRec :=
  { name := some "Guild", otype := none, is_defunct := false,
    pivotLocations := [], entry := none,
    members := [{ role := none, character_id := 5 }] }

/-- A paragraph whose instructional link sits alongside other content
(`<p>Hello <a href=...app.kanka.io...>click here</a> world</p>`). -/
def docClick : HTree :=
  .elem "p" []
    (.text "Hello " (.elem "a" [("href", "https://app.kanka.io/c/1")]
      (.text "click here" .nil) (.text " world" .nil))) .nil

/-- A non-empty markup string with no recognized block construct and no
text content (`<div></div>`). -/
def docDiv : HTree := .elem "div" [] .nil .nil

/-!  Scanner lemmas: behavior of `tryToken` on a well-formed token and on
a non-`'['` head, and length bounds used for fuel accounting. -/

theorem splitRB_spec (o r : List Char) (ho : ∀ c ∈ o, c ≠ ']') :
    splitRB (o ++ ']' :: r) = some r := by
  induction o with
  | nil => simp [splitRB]
  | cons c t ih =>
    have hc : c ≠ ']' := ho c (by simp)
    simp only [List.cons_append, splitRB, if_neg hc]
    exact ih fun x hx => ho x (by simp [hx])

theorem scanDigits_ds_close (ds r acc : List Char)
    (hd : ∀ c ∈ ds, isDigitCh c) (hne : acc ++ ds ≠ []) :
    scanDigits acc (ds ++ (']' :: r)) = some (acc ++ ds, r) := by
  induction ds generalizing acc with
  | nil =>
    simp only [List.append_nil] at hne
    simp [scanDigits, isDigitCh, hne]
  | cons c t ih =>
    have hc : isDigitCh c = true := hd c (by simp)
    simp only [List.cons_append, scanDigits, hc, if_pos, List.append_eq]
    rw [ih (acc ++ [c]) (fun x hx => hd x (by simp [hx])) (by simp)]
    simp

theorem scanDigits_ds_pipe (ds o r acc : List Char)
    (hd : ∀ c ∈ ds, isDigitCh c) (hne : acc ++ ds ≠ [])
    (ho : ∀ c ∈ o, c ≠ ']') :
    scanDigits acc (ds ++ ('|' :: (o ++ (']' :: r)))) = some (acc ++ ds, r) := by
  induction ds generalizing acc with
  | nil =>
    simp only [List.append_nil] at hne
    simp [scanDigits, isDigitCh, hne, splitRB_spec o r ho]
  | cons c t ih =>
    have hc : isDigitCh c = true := hd c (by simp)
    simp only [List.cons_append, scanDigits, hc, if_pos, List.append_eq]
    rw [ih (acc ++ [c]) (fun x hx => hd x (by simp [hx])) (by simp)]
    simp

theorem scanAlpha_typ (typ z acc : List Char)
    (ht : ∀ c ∈ typ, isAlphaCh c) (hne : acc ++ typ ≠ []) :
    scanAlpha acc (typ ++ (':' :: z))
      = match scanDigits [] z with
        | some (ds, rest) => some (acc ++ typ, ds, rest)
        | none => none := by
  induction typ generalizing acc with
  | nil =>
    simp only [List.append_nil] at hne
    simp [scanAlpha, isAlphaCh, hne]
  | cons c t ih =>
    have hc : isAlphaCh c = true := ht c (by simp)
    simp only [List.cons_append, scanAlpha, hc, if_pos, List.append_eq]
    rw [ih (acc ++ [c]) (fun x hx => ht x (by simp [hx])) (by simp)]
    cases scanDigits [] z with
    | none => rfl
    | some p => simp

theorem tryToken_cons_ne {c : Char} (l : List Char) (h : c ≠ '[') :
    tryToken (c :: l) = none := by
  simp [tryToken, h]

/-- `tryToken` on a well-formed token (optionally carrying an override
segment) followed by arbitrary text. -/
theorem tryToken_token (typ ds rest : List Char) (ov : Option (List Char))
    (ht1 : typ ≠ []) (ht2 : ∀ c ∈ typ, isAlphaCh c)
    (hd1 : ds ≠ []) (hd2 : ∀ c ∈ ds, isDigitCh c)
    (hov : ∀ o, ov = some o → ∀ c ∈ o, c ≠ ']') :
    tryToken ('[' :: (typ ++ (':' :: (ds ++ (ovPart ov ++ (']' :: rest))))))
      = some (typ, ds, rest) := by
  have h1 : tryToken ('[' :: (typ ++ (':' :: (ds ++ (ovPart ov ++ (']' :: rest))))))
      = scanAlpha [] (typ ++ (':' :: (ds ++ (ovPart ov ++ (']' :: rest))))) := by
    simp [tryToken]
  rw [h1, scanAlpha_typ _ _ [] ht2 (by simpa using ht1)]
  cases ov with
  | none =>
    simp only [ovPart, List.nil_append]
    rw [scanDigits_ds_close ds rest [] hd2 (by simpa using hd1)]
    simp
  | some o =>
    simp only [ovPart, List.cons_append]
    rw [scanDigits_ds_pipe ds o rest [] hd2 (by simpa using hd1)
      (fun c hc => hov o rfl c hc)]
    simp

theorem splitRB_some_length {s r : List Char} (h : splitRB s = some r) :
    r.length < s.length := by
  induction s generalizing r with
  | nil => simp [splitRB] at h
  | cons c t ih =>
    simp only [splitRB] at h
    split at h
    · simp only [Option.some.injEq] at h
      subst h
      simp
    · simp only [List.length_cons]
      exact Nat.lt_succ_of_lt (ih h)

theorem scanDigits_some_length {acc s : List Char} {p : List Char × List Char}
    (h : scanDigits acc s = some p) : p.2.length < s.length := by
  induction s generalizing acc with
  | nil => simp [scanDigits] at h
  | cons c t ih =>
    simp only [scanDigits] at h
    split at h
    · simp only [List.length_cons]
      exact Nat.lt_succ_of_lt (ih h)
    · split at h
      · simp only [Option.some.injEq] at h
        rw [← h]
        simp
      · split at h
        · cases hs : splitRB t with
          | none => rw [hs] at h; simp at h
          | some r2 =>
            rw [hs] at h
            simp only [Option.map_some', Option.some.injEq] at h
            rw [← h]
            simp only [List.length_cons]
            exact Nat.lt_succ_of_lt (splitRB_some_length hs)
        · simp at h

theorem scanAlpha_some_length {acc s : List Char}
    {p : List Char × List Char × List Char}
    (h : scanAlpha acc s = some p) : p.2.2.length < s.length := by
  induction s generalizing acc with
  | nil => simp [scanAlpha] at h
  | cons c t ih =>
    simp only [scanAlpha] at h
    split at h
    · simp only [List.length_cons]
      exact Nat.lt_succ_of_lt (ih h)
    · split at h
      · cases hs : scanDigits ([] : List Char) t with
        | none => rw [hs] at h; simp at h
        | some q =>
          rw [hs] at h
          simp only [Option.some.injEq] at h
          rw [← h]
          simp only [List.length_cons]
          exact Nat.lt_succ_of_lt (scanDigits_some_length hs)
      · simp at h

theorem tryToken_some_length {l : List Char}
    {p : List Char × List Char × List Char}
    (h : tryToken l = some p) : p.2.2.length < l.length := by
  cases l with
  | nil => simp [tryToken] at h
  | cons c t =>
    simp only [tryToken] at h
    split at h
    · simp only [List.length_cons]
      exact Nat.lt_succ_of_lt (scanAlpha_some_length h)
    · simp at h

theorem resolveAuxF_stable (m : IdMap) :
    ∀ f1 f2 l, l.length ≤ f1 → l.length ≤ f2 →
      resolveAuxF m f1 l = resolveAuxF m f2 l := by
  intro f1
  induction f1 with
  | zero =>
    intro f2 l h1 _
    have : l = [] := List.length_eq_zero.mp (Nat.le_zero.mp h1)
    subst this
    cases f2 <;> rfl
  | succ g ih =>
    intro f2 l h1 h2
    cases l with
    | nil => cases f2 <;> rfl
    | cons c rest =>
      cases f2 with
      | zero => simp at h2
      | succ g2 =>
        cases ht : tryToken (c :: rest) with
        | some p =>
          obtain ⟨typ, ds, r⟩ := p
          have hr := tryToken_some_length ht
          simp only [resolveAuxF, ht]
          simp at hr h1 h2
          rw [ih g2 r (by omega) (by omega)]
        | none =>
          simp only [resolveAuxF, ht]
          simp at h1 h2
          rw [ih g2 rest (by omega) (by omega)]

/-- Characters before a token that are not `'['` are copied verbatim by
the scan. -/
theorem resolveAuxF_copy (m : IdMap) (pre x : List Char) (f : Nat)
    (hp : ∀ c ∈ pre, c ≠ '[') (hf : (pre ++ x).length ≤ f) :
    resolveAuxF m f (pre ++ x) = pre ++ resolveList m x := by
  induction pre generalizing f with
  | nil =>
    simp only [List.nil_append] at hf ⊢
    exact resolveAuxF_stable m f x.length x hf (Nat.le_refl _)
  | cons c t ih =>
    cases f with
    | zero => simp at hf
    | succ g =>
      simp only [List.cons_append, resolveAuxF,
        tryToken_cons_ne _ (hp c (by simp)), List.append_eq]
      rw [ih g (fun y hy => hp y (by simp [hy])) (by simp at hf ⊢; omega)]

/-- Claim C1: a mention token whose id is in the index resolves to
`"name (type)"`. -/
theorem c1_found_resolves (m : IdMap) (pre typ ds rest : List Char) (e : Entry)
    (hp : ∀ c ∈ pre, c ≠ '[')
    (ht1 : typ ≠ []) (ht2 : ∀ c ∈ typ, isAlphaCh c)
    (hd1 : ds ≠ []) (hd2 : ∀ c ∈ ds, isDigitCh c)
    (hm : m (digitsToNat ds) = some e) :
    resolveList m (pre ++ ('[' :: (typ ++ (':' :: (ds ++ (']' :: rest))))))
      = pre ++ ((e.name ++ " (" ++ e.type ++ ")").data ++ resolveList m rest) := by
  have ht : tryToken ('[' :: (typ ++ (':' :: (ds ++ (']' :: rest)))))
      = some (typ, ds, rest) := by
    have h := tryToken_token typ ds rest none ht1 ht2 hd1 hd2
      (by intro o ho; cases ho)
    simpa [ovPart] using h
  rw [resolveList, resolveAuxF_copy m pre _ _ hp (Nat.le_refl _)]
  congr 1
  rw [resolveList, List.length_cons]
  simp only [resolveAuxF, ht]
  rw [resolveAuxF_stable m _ rest.length rest (by simp; omega) (Nat.le_refl _)]
  simp [replacement, hm, String.data_append, resolveList]

/-- Witness for C1 (Scenario A): `"See [character:5]"` with Bob indexed. -/
theorem c1_found_resolves_w :
    resolveList mapBob
        ("See ".data ++ ('[' :: ("character".data ++ (':' :: (['5'] ++ (']' :: []))))))
      = "See ".data ++ (("Bob" ++ " (" ++ "Character" ++ ")").data
          ++ resolveList mapBob []) :=
  c1_found_resolves mapBob "See ".data "character".data ['5'] [] ⟨"Bob", "Character"⟩
    (by decide) (by decide) (by decide) (by decide) (by decide) (by decide)

/-- Claim C2: a mention token whose id is absent from the index (override
segment or not) is replaced by `"[Type Not Found: id]"`, the type tag
taken from the token itself and capitalized. -/
theorem c2_absent_placeholder (m : IdMap) (pre typ ds rest : List Char)
    (ov : Option (List Char))
    (hp : ∀ c ∈ pre, c ≠ '[')
    (ht1 : typ ≠ []) (ht2 : ∀ c ∈ typ, isAlphaCh c)
    (hd1 : ds ≠ []) (hd2 : ∀ c ∈ ds, isDigitCh c)
    (hov : ∀ o, ov = some o → ∀ c ∈ o, c ≠ ']')
    (hm : m (digitsToNat ds) = none) :
    resolveList m (pre ++ ('[' :: (typ ++ (':' :: (ds ++ (ovPart ov ++ (']' :: rest)))))))
      = pre ++ (("[".data ++ pyCapitalize typ ++ " Not Found: ".data
          ++ natDigits (digitsToNat ds) ++ "]".data) ++ resolveList m rest) := by
  have ht := tryToken_token typ ds rest ov ht1 ht2 hd1 hd2 hov
  rw [resolveList, resolveAuxF_copy m pre _ _ hp (Nat.le_refl _)]
  congr 1
  rw [resolveList, List.length_cons]
  simp only [resolveAuxF, ht]
  rw [resolveAuxF_stable m _ rest.length rest (by simp; omega) (Nat.le_refl _)]
  simp [replacement, hm, resolveList]

/-- Witness for C2 (Scenario B): `"See [race:99]"` with 99 unindexed. -/
theorem c2_absent_placeholder_w :
    resolveList mapEmpty
        ("See ".data ++ ('[' :: ("race".data ++ (':' :: (['9', '9'] ++ (ovPart none ++ (']' :: [])))))))
      = "See ".data ++ (("[".data ++ pyCapitalize "race".data ++ " Not Found: ".data
          ++ natDigits (digitsToNat ['9', '9']) ++ "]".data) ++ resolveList mapEmpty []) :=
  c2_absent_placeholder mapEmpty "See ".data "race".data ['9', '9'] [] none
    (by decide) (by decide) (by decide) (by decide) (by decide)
    (by intro o ho; cases ho) (by decide)

/-- Claim C9: the mention resolver maps absent (`None`) and empty text to the
empty string, for every index. -/
theorem c9_total_on_absent (m : IdMap) :
    resolveMentions m none = "" ∧ resolveMentions m (some "") = "" :=
  ⟨rfl, by simp [resolveMentions]⟩

/-- Claim C6: the character formatter renders only the first linked race id and
the first linked family id (adding links changes nothing), and an
unresolved first link renders its relation line with value `"Unknown"`. -/
theorem c6_character_first_wins (m : IdMap) (d : CharRec) (r fr : Nat)
    (rs frs : List Nat) :
    (formatCharacter m
        { d with character_races := r :: rs, character_families := fr :: frs }
      = formatCharacter m
        { d with character_races := [r], character_families := [fr] })
    ∧ (m r = none →
        "Race: Unknown" ∈ charParts m { d with character_races := r :: rs })
    ∧ (m fr = none →
        "Family: Unknown" ∈ charParts m { d with character_families := fr :: frs }) := by
  refine ⟨rfl, ?_, ?_⟩
  · intro h
    simp [charParts, h]
    exact Or.inr (Or.inr (Or.inr (Or.inr (Or.inl (by decide)))))
  · intro h
    simp [charParts, h]
    exact Or.inr (Or.inr (Or.inr (Or.inr (Or.inr (Or.inl (by decide))))))

/-- Witness for C6 at a concrete record whose first linked race and
family ids are absent from the index. -/
theorem c6_character_first_wins_w :
    (formatCharacter mapBob
        { charRec0 with character_races := 7 :: [8], character_families := 9 :: [10] }
      = formatCharacter mapBob
        { charRec0 with character_races := [7], character_families := [9] })
    ∧ "Race: Unknown" ∈ charParts mapBob { charRec0 with character_races := 7 :: [8] }
    ∧ "Family: Unknown" ∈ charParts mapBob { charRec0 with character_families := 9 :: [10] } :=
  ⟨(c6_character_first_wins mapBob charRec0 7 9 [8] [10]).1,
   (c6_character_first_wins mapBob charRec0 7 9 [8] [10]).2.1 (by decide),
   (c6_character_first_wins mapBob charRec0 7 9 [8] [10]).2.2 (by decide)⟩

/-- Claim C10: when the organisation's first linked location id is absent from
the index, the whole location section is omitted and the record formats
exactly as if there were no linked locations. -/
theorem c10_org_location_omitted (m : IdMap) (d : OrgRec) (loc : Nat)
    (ls : List Nat) (h : m loc = none) :
    formatOrganisation m { d with pivotLocations := loc :: ls }
      = formatOrganisation m { d with pivotLocations := [] } := by
  simp [formatOrganisation, orgParts, h]

/-- Witness for C10 at a concrete record. -/
theorem c10_org_location_omitted_w :
    formatOrganisation mapBob { orgRec0 with pivotLocations := 42 :: [3] }
      = formatOrganisation mapBob { orgRec0 with pivotLocations := [] } :=
  c10_org_location_omitted mapBob orgRec0 42 [3] (by decide)

/-- Claim C8: at flush time an empty buffer yields no output file, a non-empty
buffer yields one file whose content joins the records in accumulation
order with the separator, and the separator (three newlines, eighty `'='`,
three newlines) appears only between records. -/
theorem c8_flush_separator (pre post rest : List (String × List String))
    (t u a b r : String) (rs : List String) :
    (flushBuffers (pre ++ ((t, ([] : List String)) :: post))
        = flushBuffers (pre ++ post))
    ∧ (flushBuffers ((u, r :: rs) :: rest)
        = (u ++ ".txt", pyJoin fileSeparator (r :: rs)) :: flushBuffers rest)
    ∧ pyJoin fileSeparator [a] = a
    ∧ pyJoin fileSeparator [a, b]
        = a ++ ("\n\n\n" ++ (List.replicate 80 '=').asString ++ "\n\n\n") ++ b := by
  refine ⟨?_, ?_, rfl, rfl⟩
  · simp [flushBuffers]
  · simp [flushBuffers]

/-- Processing a record file with a missing id or name leaves the index
unchanged. -/
theorem indexStep_skip (m : IdMap) (f : String) (rec : RawRec)
    (h : rec.id = none ∨ rec.name = none) : indexStep m (f, rec) = m := by
  unfold indexStep
  cases typeNameMap f with
  | none => rfl
  | some t =>
    have : ¬(truthyNat rec.id = true ∧ truthyStr rec.name = true) := by
      rcases h with h | h <;> rw [h] <;> simp [truthyNat, truthyStr]
    simp [this]

/-- Files that do not register id `i` leave the index value at `i`
unchanged. -/
theorem foldl_no_write (l : List (String × RawRec)) (i : Nat) :
    ∀ m : IdMap, (∀ fl ∈ l, writesAt fl i = false) →
      (l.foldl indexStep m) i = m i := by
  induction l with
  | nil => intro m _; rfl
  | cons fl t ih =>
    intro m hall
    rw [List.foldl_cons, ih _ (fun x hx => hall x (by simp [hx]))]
    have hw : writesAt fl i = false := hall fl (by simp)
    unfold indexStep
    cases htm : typeNameMap fl.1 with
    | none => rfl
    | some ty =>
      by_cases hc : truthyNat fl.2.id = true ∧ truthyStr fl.2.name = true
      · simp only [hc, and_self, if_pos]
        have hne : some i ≠ fl.2.id := by
          intro he
          have h1 : truthyNat (some i) = true := by rw [he]; exact hc.1
          rw [writesAt, htm, ← he] at hw
          simp [h1, hc.2] at hw
        simp [hne]
      · simp [hc]

/-- Claim C7: during index construction a decodable record missing its id or
its name is skipped silently, and among records registering the same id
the last one in traversal order wins. -/
theorem c7_index_skip_last_wins (files1 files2 : List (String × RawRec))
    (f : String) (rec : RawRec) :
    ((rec.id = none ∨ rec.name = none) →
      createIdMap (files1 ++ (f, rec) :: files2) = createIdMap (files1 ++ files2))
    ∧ (∀ i nm t, rec.id = some i → i ≠ 0 → rec.name = some nm → nm ≠ "" →
        typeNameMap f = some t →
        (∀ fl ∈ files2, writesAt fl i = false) →
        createIdMap (files1 ++ (f, rec) :: files2) i = some ⟨nm, t⟩) := by
  constructor
  · intro h
    unfold createIdMap
    rw [List.foldl_append, List.foldl_append, List.foldl_cons,
      indexStep_skip _ f rec h]
  · intro i nm t hid hi hnm hne htm hall
    unfold createIdMap
    rw [List.foldl_append, List.foldl_cons, foldl_no_write files2 i _ hall]
    unfold indexStep
    simp only [htm]
    rw [if_pos]
    · simp [hid, hnm]
    · constructor
      · simp [truthyNat, hid]
        omega
      · simp [truthyStr, hnm, hne]

/-- Witness for C7: a record missing its name is skipped, and of two
`characters` records with id 5 the later one wins. -/
theorem c7_index_skip_last_wins_w :
    (createIdMap [("characters", ⟨some 5, none⟩), ("characters", ⟨some 5, some "Zoe"⟩)]
      = createIdMap [("characters", ⟨some 5, some "Zoe"⟩)])
    ∧ createIdMap
        [("characters", ⟨some 5, some "Abe"⟩), ("characters", ⟨some 5, some "Zoe"⟩)] 5
      = some ⟨"Zoe", "Character"⟩ :=
  ⟨(c7_index_skip_last_wins [] [("characters", ⟨some 5, some "Zoe"⟩)]
      "characters" ⟨some 5, none⟩).1 (Or.inr rfl),
   (c7_index_skip_last_wins [("characters", ⟨some 5, some "Abe"⟩)] []
      "characters" ⟨some 5, some "Zoe"⟩).2 5 "Zoe" "Character"
      rfl (by decide) rfl (by decide) (by decide) (by intro fl hf; cases hf)⟩

/-- Without `p` elements (in particular, with no recognized construct)
the decompose loop changes nothing. -/
theorem scrub_no_recognized (t : HTree) (h : hasRecognized t = false) :
    scrub t = t := by
  induction t with
  | nil => rfl
  | text s sib ih =>
    simp only [hasRecognized] at h
    simp [scrub, ih h]
  | elem name attrs child sib ihc ihs =>
    simp only [hasRecognized, Bool.or_eq_false_iff] at h
    obtain ⟨⟨hn, hc⟩, hs⟩ := h
    simp only [Bool.or_eq_false_iff, beq_eq_false_iff_ne] at hn
    simp [scrub, hn.1.1.1.1.1.1.1, ihc hc, ihs hs]

/-- With no recognized construct the rendering loop collects nothing. -/
theorem textParts_no_recognized (t : HTree) (h : hasRecognized t = false) :
    textParts t = [] := by
  induction t with
  | nil => rfl
  | text s sib ih =>
    simp only [hasRecognized] at h
    simp [textParts, ih h]
  | elem name attrs child sib ihc ihs =>
    simp only [hasRecognized, Bool.or_eq_false_iff] at h
    obtain ⟨⟨hn, hc⟩, hs⟩ := h
    simp only [Bool.or_eq_false_iff, beq_eq_false_iff_ne] at hn
    obtain ⟨⟨⟨⟨⟨⟨⟨h1, h2⟩, h3⟩, h4⟩, h5⟩, h6⟩, h7⟩, h8⟩ := hn
    simp [textParts, h1, h2, h3, h4, h5, h6, h7, h8, ihc hc, ihs hs]

/-- Claim C3 counterexample: `<div></div>` is a non-empty markup string with no
recognized block construct, yet the normalizer returns the empty string —
the claimed non-emptiness of the fallback fails. -/
theorem c3_fallback_nonempty_ce :
    renderH docDiv ≠ "" ∧ hasRecognized docDiv = false
      ∧ cleanHtml (some docDiv) = "" :=
  ⟨by decide, by decide, by decide⟩

/-- Claim C3 amended: with no recognized block construct the normalizer returns
the tag-free text of the input (which is empty exactly when the input has
no text content); empty or absent input yields the empty string. -/
theorem c3_fallback_tagfree (doc : HTree) (h : hasRecognized doc = false) :
    cleanHtml (some doc) = getText doc ∧ cleanHtml none = "" := by
  refine ⟨?_, rfl⟩
  simp [cleanHtml, scrub_no_recognized doc h, textParts_no_recognized doc h]

/-- Witness for the amended C3 at `<div></div>`. -/
theorem c3_fallback_tagfree_w :
    cleanHtml (some docDiv) = getText docDiv ∧ cleanHtml none = "" :=
  c3_fallback_tagfree docDiv (by decide)

/-- Claim C5 counterexample: the paragraph of `docClick` contains the
instructional link alongside other visible content, so by the claim it
should be kept; the code removes the whole paragraph (the normalizer
output drops to the empty string although the paragraph had text). -/
theorem c5_sole_content_ce :
    getText docClick = "Hello click here world"
      ∧ scrub docClick = .nil
      ∧ cleanHtml (some docClick) = "" :=
  ⟨by decide, by decide, by decide⟩

/-- Claim C5 amended: a paragraph is removed in its entirety whenever it
contains (at nearest-paragraph level) a hyperlink whose target contains
the platform domain and whose visible text contains `"click here"`
case-insensitively — even when other content sits alongside the link;
a paragraph containing no such link is kept (the rule recursing into its
content and siblings). -/
theorem c5_clickhere_removal (pattrs attrs : List (String × String))
    (s1 s2 : String) (lk sib : HTree) :
    (hrefHasKanka attrs = true → clickHereText lk = true →
      scrub (.elem "p" pattrs
          (.text s1 (.elem "a" attrs lk (.text s2 .nil))) sib)
        = scrub sib)
    ∧ (∀ kids : HTree, hasTrigger kids = false →
        scrub (.elem "p" pattrs kids sib)
          = .elem "p" pattrs (scrub kids) (scrub sib)) := by
  constructor
  · intro h1 h2
    simp [scrub, hasTrigger, isTriggerA, h1, h2]
  · intro kids h
    simp [scrub, h]

/-- Witness for the amended C5 at the concrete paragraph of `docClick`. -/
theorem c5_clickhere_removal_w :
    (scrub (.elem "p" []
        (.text "Hello " (.elem "a" [("href", "https://app.kanka.io/c/1")]
          (.text "click here" .nil) (.text " world" .nil))) .nil)
      = scrub .nil)
    ∧ scrub (.elem "p" [] (.text "plain" .nil) .nil)
      = .elem "p" [] (scrub (.text "plain" .nil)) (scrub .nil) :=
  ⟨(c5_clickhere_removal [] [("href", "https://app.kanka.io/c/1")]
      "Hello " " world" (.text "click here" .nil) .nil).1 (by decide) (by decide),
   (c5_clickhere_removal [] [("href", "https://app.kanka.io/c/1")]
      "Hello " " world" (.text "click here" .nil) .nil).2
      (.text "plain" .nil) (by decide)⟩

theorem goodCh_spec {c : Char} (h : goodCh c = true) :
    c ≠ '[' ∧ c ≠ ']' ∧ c ≠ ':' ∧ c ≠ '|' := by
  simp [goodCh] at h
  exact ⟨h.1.1.1, h.1.1.2, h.1.2, h.2⟩

theorem resolveAuxF_id_of_noTok (m : IdMap) :
    ∀ f s, noTokR s → resolveAuxF m f s = s := by
  intro f
  induction f with
  | zero => intro s _; rfl
  | succ g ih =>
    intro s hs
    cases s with
    | nil => rfl
    | cons c r =>
      obtain ⟨h1, h2⟩ := hs
      simp only [resolveAuxF, h1]
      rw [ih r h2]

theorem noTokR_append_no_lb (xs ys : List Char)
    (hx : ∀ c ∈ xs, c ≠ '[') (hy : noTokR ys) : noTokR (xs ++ ys) := by
  induction xs with
  | nil => exact hy
  | cons c t ih =>
    exact ⟨tryToken_cons_ne _ (hx c (by simp)),
      ih fun x hxm => hx x (by simp [hxm])⟩

theorem splitRB_eq_none {s : List Char} (h : ∀ c ∈ s, c ≠ ']') :
    splitRB s = none := by
  induction s with
  | nil => rfl
  | cons c t ih =>
    simp only [splitRB, if_neg (h c (by simp))]
    exact ih fun x hx => h x (by simp [hx])

theorem splitRB_none_no_rb {s : List Char} (h : splitRB s = none) :
    ∀ c ∈ s, c ≠ ']' := by
  induction s with
  | nil => intro c hc; cases hc
  | cons c t ih =>
    simp only [splitRB] at h
    split at h
    · cases h
    · intro x hx
      rcases List.mem_cons.mp hx with hx | hx
      · subst hx; assumption
      · exact ih h x hx

theorem scanDigits_none_of_no_rb {s : List Char} (h : ∀ c ∈ s, c ≠ ']') :
    ∀ acc, scanDigits acc s = none := by
  induction s with
  | nil => intro acc; rfl
  | cons c t ih =>
    intro acc
    simp only [scanDigits]
    by_cases hd : isDigitCh c = true
    · simp only [hd, if_pos]
      exact ih (fun x hx => h x (by simp [hx])) (acc ++ [c])
    · have hc1 : ¬(acc ≠ [] ∧ c = ']') := fun hx => h c (by simp) hx.2
      by_cases hc2 : acc ≠ [] ∧ c = '|'
      · obtain ⟨hne, hceq⟩ := hc2
        subst hceq
        have h1 : isDigitCh '|' = false := by decide
        have h3 : splitRB t = none :=
          splitRB_eq_none fun x hx => h x (by simp [hx])
        simp [h1, hc1, hne, h3]
      · simp [hd, hc1, hc2]

theorem scanAlpha_none_of_no_rb {s : List Char} (h : ∀ c ∈ s, c ≠ ']') :
    ∀ acc, scanAlpha acc s = none := by
  induction s with
  | nil => intro acc; rfl
  | cons c t ih =>
    intro acc
    simp only [scanAlpha]
    by_cases ha : isAlphaCh c = true
    · simp only [ha, if_pos]
      exact ih (fun x hx => h x (by simp [hx])) (acc ++ [c])
    · by_cases hb : acc ≠ [] ∧ c = ':'
      · obtain ⟨hne, hceq⟩ := hb
        subst hceq
        have h1 : isAlphaCh ':' = false := by decide
        have h3 : scanDigits [] t = none :=
          scanDigits_none_of_no_rb (fun x hx => h x (by simp [hx])) []
        simp [h1, hne, h3]
      · simp [ha, hb]

theorem tryToken_none_of_no_rb {l : List Char} (h : ∀ c ∈ l, c ≠ ']') :
    tryToken l = none := by
  cases l with
  | nil => rfl
  | cons c t =>
    simp only [tryToken]
    split
    · exact scanAlpha_none_of_no_rb (fun x hx => h x (by simp [hx])) []
    · rfl

theorem resolveAuxF_id_of_no_rb (m : IdMap) :
    ∀ f s, (∀ c ∈ s, c ≠ ']') → resolveAuxF m f s = s := by
  intro f
  induction f with
  | zero => intro s _; rfl
  | succ g ih =>
    intro s hs
    cases s with
    | nil => rfl
    | cons c r =>
      simp only [resolveAuxF, tryToken_none_of_no_rb hs]
      rw [ih r fun x hx => hs x (by simp [hx])]

/-- A scan in the letters state dies inside any colon-free segment
followed by a space. -/
theorem scanAlpha_stops (xs : List Char) (hx : ∀ c ∈ xs, c ≠ ':') :
    ∀ acc z, scanAlpha acc (xs ++ (' ' :: z)) = none := by
  induction xs with
  | nil =>
    intro acc z
    simp [scanAlpha, isAlphaCh]
  | cons c t ih =>
    intro acc z
    simp only [List.cons_append, scanAlpha]
    by_cases ha : isAlphaCh c = true
    · simp only [ha, if_pos, List.append_eq]
      exact ih (fun x hxm => hx x (by simp [hxm])) (acc ++ [c]) z
    · have hb : ¬(acc ≠ [] ∧ c = ':') := fun hr => hx c (by simp) hr.2
      simp [ha, hb]

/-- A scan in the digits state dies inside any `']'`/`'|'`-free segment
followed by a space. -/
theorem scanDigits_stops (xs : List Char) (hx : ∀ c ∈ xs, c ≠ ']' ∧ c ≠ '|') :
    ∀ acc z, scanDigits acc (xs ++ (' ' :: z)) = none := by
  induction xs with
  | nil =>
    intro acc z
    simp [scanDigits, isDigitCh]
  | cons c t ih =>
    intro acc z
    simp only [List.cons_append, scanDigits]
    by_cases hd : isDigitCh c = true
    · simp only [hd, if_pos, List.append_eq]
      exact ih (fun x hxm => hx x (by simp [hxm])) (acc ++ [c]) z
    · have hb1 : ¬(acc ≠ [] ∧ c = ']') := fun hr => (hx c (by simp)).1 hr.2
      have hb2 : ¬(acc ≠ [] ∧ c = '|') := fun hr => (hx c (by simp)).2 hr.2
      simp [hd, hb1, hb2]

/-- No scan in the letters state survives a `'['`. -/
theorem scanAlpha_lb (acc z : List Char) : scanAlpha acc ('[' :: z) = none := by
  have h1 : isAlphaCh '[' = false := by decide
  have h2 : ¬(acc ≠ [] ∧ '[' = ':') := fun hr => by cases hr.2
  simp [scanAlpha, h1, h2]

/-- No scan in the digits state survives a `'['`. -/
theorem scanDigits_lb (acc z : List Char) : scanDigits acc ('[' :: z) = none := by
  have h1 : isDigitCh '[' = false := by decide
  have h2 : ¬(acc ≠ [] ∧ '[' = ']') := fun hr => by cases hr.2
  have h3 : ¬(acc ≠ [] ∧ '[' = '|') := fun hr => by cases hr.2
  simp [scanDigits, h1, h2, h3]

/-- The type tag produced by a successful scan consists of letters. -/
theorem scanAlpha_some_alpha :
    ∀ s acc t d r, scanAlpha acc s = some (t, d, r) →
      (∀ c ∈ acc, isAlphaCh c = true) → ∀ c ∈ t, isAlphaCh c = true := by
  intro s
  induction s with
  | nil => intro acc t d r h; simp [scanAlpha] at h
  | cons c rest ih =>
    intro acc t d r h hacc
    simp only [scanAlpha] at h
    split at h
    · refine ih (acc ++ [c]) t d r h fun x hx => ?_
      rcases List.mem_append.mp hx with hx | hx
      · exact hacc x hx
      · simp at hx
        subst hx
        assumption
    · split at h
      · cases hsd : scanDigits ([] : List Char) rest with
        | none => rw [hsd] at h; cases h
        | some q =>
          rw [hsd] at h
          injection h with h2
          simp only [Prod.mk.injEq] at h2
          intro x hx
          exact hacc x (by rw [← h2.1] at hx; exact hx)
      · cases h

theorem tableGet_mem :
    ∀ (tbl : List (Char × Char)) (c d : Char), tableGet tbl c = some d →
      (c, d) ∈ tbl := by
  intro tbl
  induction tbl with
  | nil => intro c d h; cases h
  | cons p t ih =>
    intro c d h
    simp only [tableGet] at h
    split at h
    · rename_i hc
      injection h with h2
      exact List.mem_cons.mpr (Or.inl (by rw [hc, ← h2]))
    · exact List.mem_cons_of_mem _ (ih c d h)

/-- Upper-casing a letter yields neither `':'` nor `'['`. -/
theorem upChar_safe {c : Char} (h : isAlphaCh c = true) :
    upChar c ≠ ':' ∧ upChar c ≠ '[' := by
  unfold upChar
  cases ht : tableGet upTable c with
  | none =>
    simp only [Option.getD_none]
    constructor <;> intro he <;> rw [he] at h <;> exact absurd h (by decide)
  | some d =>
    simp only [Option.getD_some]
    have hm := tableGet_mem upTable c d ht
    have hall : ∀ p ∈ upTable, p.2 ≠ ':' ∧ p.2 ≠ '[' := by decide
    exact hall _ hm

/-- Lower-casing a letter yields neither `':'` nor `'['`. -/
theorem downChar_safe {c : Char} (h : isAlphaCh c = true) :
    downChar c ≠ ':' ∧ downChar c ≠ '[' := by
  unfold downChar
  cases ht : tableGet downTable c with
  | none =>
    simp only [Option.getD_none]
    constructor <;> intro he <;> rw [he] at h <;> exact absurd h (by decide)
  | some d =>
    simp only [Option.getD_some]
    have hm := tableGet_mem downTable c d ht
    have hall : ∀ p ∈ downTable, p.2 ≠ ':' ∧ p.2 ≠ '[' := by decide
    exact hall _ hm

/-- Capitalizing the alphabetic type tag introduces no `':'` and no `'['`. -/
theorem pyCapitalize_safe (typ : List Char) (h : ∀ c ∈ typ, isAlphaCh c = true) :
    ∀ c ∈ pyCapitalize typ, c ≠ ':' ∧ c ≠ '[' := by
  cases typ with
  | nil => intro c hc; cases hc
  | cons c0 t =>
    intro c hc
    simp only [pyCapitalize, List.mem_cons] at hc
    rcases hc with hc | hc
    · subst hc
      exact ⟨(upChar_safe (h c0 (by simp))).1, (upChar_safe (h c0 (by simp))).2⟩
    · obtain ⟨x, hx, hxc⟩ := List.mem_map.mp hc
      subst hxc
      exact ⟨(downChar_safe (h x (by simp [hx]))).1,
        (downChar_safe (h x (by simp [hx]))).2⟩

/-- The decimal digits of a number are never `'['`. -/
theorem natDigitsAux_ne_lb :
    ∀ fuel n acc, (∀ c ∈ acc, c ≠ '[') →
      ∀ c ∈ natDigitsAux fuel n acc, c ≠ '[' := by
  have hsmall : ∀ k, k < 10 → Char.ofNat (48 + k) ≠ '[' := by decide
  intro fuel
  induction fuel with
  | zero => intro n acc hacc; exact hacc
  | succ f ih =>
    intro n acc hacc
    simp only [natDigitsAux]
    split
    · intro c hc
      rcases List.mem_cons.mp hc with hc | hc
      · subst hc
        exact hsmall n (by omega)
      · exact hacc c hc
    · refine ih (n / 10) _ fun c hc => ?_
      rcases List.mem_cons.mp hc with hc | hc
      · subst hc
        exact hsmall (n % 10) (Nat.mod_lt _ (by omega))
      · exact hacc c hc

theorem natDigits_ne_lb (n : Nat) : ∀ c ∈ natDigits n, c ≠ '[' :=
  natDigitsAux_ne_lb (n + 1) n [] (by intro c hc; cases hc)

/-- A scan that failed on the original text in the letters or digits
state also fails on the resolved text, provided the index is `GoodMap`. -/
theorem crux_scan (m : IdMap) (HM : GoodMap m) :
    ∀ rest : List Char, ∀ f : Nat, rest.length ≤ f →
      (∀ acc, scanAlpha acc rest = none →
        scanAlpha acc (resolveAuxF m f rest) = none)
      ∧ (∀ acc, scanDigits acc rest = none →
        scanDigits acc (resolveAuxF m f rest) = none) := by
  intro rest
  induction rest with
  | nil =>
    intro f _
    have hr : resolveAuxF m f [] = [] := by cases f <;> rfl
    rw [hr]
    exact ⟨fun _ h => h, fun _ h => h⟩
  | cons c rest2 ih =>
    intro f hf
    cases f with
    | zero => simp at hf
    | succ g =>
      have hg : rest2.length ≤ g := by simp at hf; omega
      obtain ⟨ihA, ihD⟩ := ih g hg
      cases ht : tryToken (c :: rest2) with
      | some p =>
        obtain ⟨typ, p2⟩ := p
        obtain ⟨ds, r⟩ := p2
        have hout : resolveAuxF m (g + 1) (c :: rest2)
            = replacement m typ ds ++ resolveAuxF m g r := by
          simp only [resolveAuxF, ht]
        rw [hout]
        cases hm : m (digitsToNat ds) with
        | some e =>
          have hgood := HM _ e hm
          have hname : ∀ x ∈ e.name.data, x ≠ ':' :=
            fun x hx => (goodCh_spec (hgood.1 x hx)).2.2.1
          have hnameD : ∀ x ∈ e.name.data, x ≠ ']' ∧ x ≠ '|' := fun x hx =>
            ⟨(goodCh_spec (hgood.1 x hx)).2.1, (goodCh_spec (hgood.1 x hx)).2.2.2⟩
          have hshape : replacement m typ ds ++ resolveAuxF m g r
              = e.name.data
                  ++ (' ' :: ('(' :: (e.type.data ++ (')' :: resolveAuxF m g r)))) := by
            simp [replacement, hm]
          rw [hshape]
          exact ⟨fun acc _ => scanAlpha_stops e.name.data hname acc _,
            fun acc _ => scanDigits_stops e.name.data hnameD acc _⟩
        | none =>
          have hshape : replacement m typ ds ++ resolveAuxF m g r
              = '[' :: (pyCapitalize typ ++ (" Not Found: ".data
                  ++ (natDigits (digitsToNat ds) ++ (']' :: resolveAuxF m g r)))) := by
            simp [replacement, hm]
          rw [hshape]
          exact ⟨fun acc _ => scanAlpha_lb acc _, fun acc _ => scanDigits_lb acc _⟩
      | none =>
        have hout : resolveAuxF m (g + 1) (c :: rest2)
            = c :: resolveAuxF m g rest2 := by
          simp only [resolveAuxF, ht]
        rw [hout]
        constructor
        · intro acc h
          by_cases ha : isAlphaCh c = true
          · have e1 : ∀ X, scanAlpha acc (c :: X) = scanAlpha (acc ++ [c]) X := by
              intro X
              simp [scanAlpha, ha]
            rw [e1] at h ⊢
            exact ihA _ h
          · by_cases hb : acc ≠ [] ∧ c = ':'
            · have e1 : ∀ X, scanAlpha acc (c :: X)
                  = match scanDigits [] X with
                    | some (ds, rest) => some (acc, ds, rest)
                    | none => none := by
                intro X
                have hcol : isAlphaCh ':' = false := by decide
                simp [scanAlpha, ha, hb.1, hb.2, hcol]
              rw [e1] at h ⊢
              cases hx : scanDigits ([] : List Char) rest2 with
              | some q =>
                obtain ⟨q1, q2⟩ := q
                rw [hx] at h
                simp at h
              | none =>
                rw [ihD [] hx]
            · have e1 : ∀ X, scanAlpha acc (c :: X) = none := by
                intro X
                simp [scanAlpha, ha, hb]
              rw [e1]
        · intro acc h
          by_cases hd : isDigitCh c = true
          · have e1 : ∀ X, scanDigits acc (c :: X) = scanDigits (acc ++ [c]) X := by
              intro X
              simp [scanDigits, hd]
            rw [e1] at h ⊢
            exact ihD _ h
          · by_cases hb1 : acc ≠ [] ∧ c = ']'
            · have e1 : scanDigits acc (c :: rest2) = some (acc, rest2) := by
                have hrb : isDigitCh ']' = false := by decide
                simp [scanDigits, hd, hb1.1, hb1.2, hrb]
              rw [e1] at h
              simp at h
            · by_cases hb2 : acc ≠ [] ∧ c = '|'
              · have e1 : ∀ X, scanDigits acc (c :: X)
                    = (splitRB X).map fun rest => (acc, rest) := by
                  intro X
                  have hpb : isDigitCh '|' = false := by decide
                  simp [scanDigits, hd, hb1, hb2.1, hb2.2, hpb]
                rw [e1] at h ⊢
                have hsp : splitRB rest2 = none := by
                  cases hy : splitRB rest2 with
                  | none => rfl
                  | some y => rw [hy] at h; simp at h
                have hid : resolveAuxF m g rest2 = rest2 :=
                  resolveAuxF_id_of_no_rb m g rest2 (splitRB_none_no_rb hsp)
                rw [hid, hsp]
                rfl
              · have e1 : ∀ X, scanDigits acc (c :: X) = none := by
                  intro X
                  simp [scanDigits, hd, hb1, hb2]
                rw [e1]

/-- Resolved text contains no position where the token pattern matches,
provided the index is `GoodMap`. -/
theorem noTokR_resolveAuxF (m : IdMap) (HM : GoodMap m) :
    ∀ f l, l.length ≤ f → noTokR (resolveAuxF m f l) := by
  intro f
  induction f with
  | zero =>
    intro l hl
    have h0 : l = [] := List.length_eq_zero.mp (Nat.le_zero.mp hl)
    subst h0
    exact trivial
  | succ g ih =>
    intro l hl
    cases l with
    | nil => exact trivial
    | cons c rest =>
      cases ht : tryToken (c :: rest) with
      | some p =>
        obtain ⟨typ, p2⟩ := p
        obtain ⟨ds, r⟩ := p2
        have hr : r.length ≤ g := by
          have hlen := tryToken_some_length ht
          simp at hlen hl
          omega
        have hrec := ih r hr
        have hout : resolveAuxF m (g + 1) (c :: rest)
            = replacement m typ ds ++ resolveAuxF m g r := by
          simp only [resolveAuxF, ht]
        rw [hout]
        cases hm : m (digitsToNat ds) with
        | some e =>
          have hgood := HM _ e hm
          refine noTokR_append_no_lb _ _ ?_ hrec
          intro x hx
          rw [show replacement m typ ds
              = e.name.data ++ (" (".data ++ (e.type.data ++ ")".data)) from by
            simp [replacement, hm]] at hx
          rcases List.mem_append.mp hx with hx | hx
          · exact (goodCh_spec (hgood.1 x hx)).1
          rcases List.mem_append.mp hx with hx | hx
          · simp at hx
            rcases hx with hx | hx <;> subst hx <;> decide
          rcases List.mem_append.mp hx with hx | hx
          · exact (goodCh_spec (hgood.2 x hx)).1
          · simp at hx
            subst hx
            decide
        | none =>
          have hc : c = '[' := by
            by_contra hcne
            rw [tryToken_cons_ne rest hcne] at ht
            cases ht
          subst hc
          have hsa : scanAlpha [] rest = some (typ, ds, r) := by
            simpa [tryToken] using ht
          have htyp : ∀ x ∈ typ, isAlphaCh x = true :=
            scanAlpha_some_alpha rest [] typ ds r hsa (by intro x hx; cases hx)
          have hcap := pyCapitalize_safe typ htyp
          have hshape : replacement m typ ds ++ resolveAuxF m g r
              = '[' :: (pyCapitalize typ ++ (" Not Found: ".data
                  ++ (natDigits (digitsToNat ds) ++ ("]".data ++ resolveAuxF m g r)))) := by
            simp [replacement, hm]
          rw [hshape]
          refine ⟨?_, ?_⟩
          · have h0 : ∀ W, tryToken ('[' :: W) = scanAlpha [] W := by
              intro W
              simp [tryToken]
            rw [h0]
            exact scanAlpha_stops (pyCapitalize typ) (fun x hx => (hcap x hx).1) [] _
          · refine noTokR_append_no_lb _ _ (fun x hx => (hcap x hx).2) ?_
            refine noTokR_append_no_lb (" Not Found: ".data) _ (by decide) ?_
            refine noTokR_append_no_lb _ _ (natDigits_ne_lb _) ?_
            exact noTokR_append_no_lb ("]".data) _ (by decide) hrec
      | none =>
        have hout : resolveAuxF m (g + 1) (c :: rest)
            = c :: resolveAuxF m g rest := by
          simp only [resolveAuxF, ht]
        rw [hout]
        have hrest : rest.length ≤ g := by simp at hl; omega
        refine ⟨?_, ih rest hrest⟩
        by_cases hc : c = '['
        · subst hc
          have hsa : scanAlpha [] rest = none := by
            simpa [tryToken] using ht
          have hout2 := (crux_scan m HM rest g hrest).1 [] hsa
          simp [tryToken, hout2]
        · exact tryToken_cons_ne _ hc

/-- Claim C4 counterexample: idempotence fails as soon as an index entry itself
carries token syntax — both for a name containing a full token and for a
bracket-free name containing only `':'` and `'|'` (the resolved text then
re-matches the override form of the grammar across replacement borders). -/
theorem c4_idempotence_ce :
    resolveMentions mapBracket
        (some (resolveMentions mapBracket (some "[character:1]")))
      ≠ resolveMentions mapBracket (some "[character:1]")
    ∧ resolveMentions mapColon
        (some (resolveMentions mapColon (some "[x[a:1][race:99]")))
      ≠ resolveMentions mapColon (some "[x[a:1][race:99]") :=
  ⟨by decide, by decide⟩

/-- Claim C4 amended: applying the mention resolver twice equals applying it
once, provided no name and no type label stored in the index contains any
of the characters `'['`, `']'`, `':'`, `'|'` (without this restriction
the resolved text can re-match the token grammar). -/
theorem c4_resolve_idempotent (m : IdMap) (HM : GoodMap m) (t : Option String) :
    resolveMentions m (some (resolveMentions m t)) = resolveMentions m t := by
  cases t with
  | none => simp [resolveMentions]
  | some s =>
    by_cases hs : s = ""
    · subst hs
      simp [resolveMentions]
    · simp only [resolveMentions, if_neg hs]
      by_cases ho : (resolveList m s.data).asString = ""
      · rw [if_pos ho]
        exact ho.symm
      · rw [if_neg ho]
        have hnt : noTokR (resolveList m s.data) :=
          noTokR_resolveAuxF m HM s.data.length s.data (Nat.le_refl _)
        have hfix : resolveList m ((resolveList m s.data).asString).data
            = (resolveList m s.data).asString.data :=
          resolveAuxF_id_of_noTok m _ _ hnt
        rw [hfix]
        rfl

/-- Witness for the amended C4: the index holding Bob is bracket-, colon-
and pipe-free, so resolving `"See [character:5]"` twice changes nothing. -/
theorem c4_resolve_idempotent_w :
    resolveMentions mapBob (some (resolveMentions mapBob (some "See [character:5]")))
      = resolveMentions mapBob (some "See [character:5]") :=
  c4_resolve_idempotent mapBob
    (by
      intro n e
      unfold mapBob
      split
      · intro h
        injection h with h2
        rw [← h2]
        exact ⟨by decide, by decide⟩
      · intro h
        cases h)
    (some "See [character:5]")
